import Mathlib

/-!
Verification of the chansummary fund-recovery tool against its design
specification.  The Go source is embedded shallowly: pure functions become
Lean functions, machine integers become `Nat`/`Int` with explicit modular
reduction where Go wraps, fallible code returns `Option`/`Except`, and
cryptographic primitives (HMAC-SHA512, HKDF-SHA256, RIPEMD/SHA hashes,
secp256k1 point operations) are abstracted as explicit function parameters
so that every structural and arithmetic decision of the source is visible
and checkable.
-/

set_option maxRecDepth 4096

namespace Chansummary


/-! ## Byte-level helpers shared by all components -/

/-- Big-endian interpretation of a byte list, as in Go big.Int.SetBytes. -/
def bytesToNat (bs : List Nat) : Nat :=
  bs.foldl (fun a b => a * 256 + b) 0

/-- Fuel-driven workhorse for `natToBytes`; the fuel bounds the number of
produced bytes and `natToBytes` always supplies enough. -/
def natToBytesAux : Nat → Nat → List Nat
  | 0, _ => []
  | _ + 1, 0 => []
  | fuel + 1, n => natToBytesAux fuel (n / 256) ++ [n % 256]

/-- Minimal big-endian byte representation, as in Go big.Int.Bytes: leading
zeros are stripped and zero becomes the empty slice. -/
def natToBytes (n : Nat) : List Nat :=
  natToBytesAux n n

/-- Pad a byte list on the left with zeros up to 32 bytes (the correct
ser256 padding used when an extended key is serialized). -/
def pad32 (bs : List Nat) : List Nat :=
  List.replicate (32 - bs.length) 0 ++ bs

/-- Pad a byte list on the right with zeros up to 32 bytes.  This mirrors
the legacy DeriveNonStandard behavior where `copy(data[1:], k.key)` left
aligns a short private key inside the 33-byte field. -/
def leftAlign32 (bs : List Nat) : List Nat :=
  bs ++ List.replicate (32 - bs.length) 0

/-- Big-endian 4-byte serialization of a 32-bit index. -/
def ser32 (i : Nat) : List Nat :=
  [i / 2 ^ 24 % 256, i / 2 ^ 16 % 256, i / 2 ^ 8 % 256, i % 256]

/-- Unsigned 32-bit subtraction with wraparound, as Go uint32 subtraction. -/
def sub32 (a b : Nat) : Nat :=
  (a + 2 ^ 32 - b % 2 ^ 32) % 2 ^ 32

/-- Little-endian 8-byte serialization, as Go binary.LittleEndian.PutUint64. -/
def le64 (n : Nat) : List Nat :=
  (List.range 8).map (fun i => n / 256 ^ i % 256)

/-! ## Derivation path parsing (src/lnd/hdkeychain.go, ParsePath)

Go string primitives are modelled over `List Char`.  `strconv.Atoi` on a
64-bit platform is `ParseInt(s, 10, 64)`: optional sign, decimal digits,
error outside the int64 range. -/

/-- Whitespace as recognized by Go strings.TrimSpace (unicode.IsSpace) for
the Latin-1 range. -/
def goIsSpace (c : Char) : Bool :=
  c.toNat = 32 || c.toNat = 9 || c.toNat = 10 || c.toNat = 11 ||
    c.toNat = 12 || c.toNat = 13 || c.toNat = 133 || c.toNat = 160

/-- Go strings.TrimSpace: strip leading and trailing whitespace. -/
def goTrimSpace (s : List Char) : List Char :=
  ((s.dropWhile goIsSpace).reverse.dropWhile goIsSpace).reverse

/-- The apostrophe character marking a hardened path segment. -/
def apostrophe : Char := Char.ofNat 39

/-- Decimal digit test. -/
def isDecDigit (c : Char) : Bool := 48 ≤ c.toNat && c.toNat ≤ 57

/-- Value of a digit string (caller has checked all characters are digits). -/
def digitsNat (ds : List Char) : Nat :=
  ds.foldl (fun a c => a * 10 + (c.toNat - 48)) 0

/-- Go strconv.Atoi: optional sign, at least one decimal digit, int64 range
check (the bounds are minInt64 and maxInt64); returns `none` exactly when Go
returns a non-nil error. -/
def goAtoi (s : List Char) : Option Int :=
  match s with
  | [] => none
  | c :: rest =>
    let ds := if c.toNat = 45 ∨ c.toNat = 43 then rest else s
    if ds = [] then none
    else if ¬ ds.all isDecDigit then none
    else
      let v : Int := if c.toNat = 45 then -(digitsNat ds : Int) else (digitsNat ds : Int)
      if v < -9223372036854775808 ∨ (9223372036854775807 : Int) < v then none else some v

/-- HardenedKeyStart from btcd hdkeychain. -/
def hardenedKeyStart : Nat := 2 ^ 31

/-- One loop iteration of ParsePath: hardened marker handling, Atoi, uint32
truncation of the parsed value and wrapping uint32 addition. -/
def parsePathPart (s : List Char) : Option Nat :=
  let hardened := s.contains apostrophe
  let part := if hardened then (s.reverse.dropWhile (fun c => c = apostrophe)).reverse else s
  match goAtoi part with
  | none => none
  | some v =>
    some (((if hardened then hardenedKeyStart else 0) + (v % (2 ^ 32 : Int)).toNat) % 2 ^ 32)

/-- Sequence a fallible parser over a list, stopping at the first failure,
exactly as the ParsePath loop returns on the first bad segment. -/
def mapOption {α β : Type} (f : α → Option β) : List α → Option (List β)
  | [] => some []
  | a :: l =>
    match f a with
    | none => none
    | some b => (mapOption f l).map (b :: ·)

/-- ParsePath from src/lnd/hdkeychain.go: trim whitespace, require the m/
leading marker, split on the slash and parse every remaining segment. -/
def ParsePath (path : String) : Option (List Nat) :=
  let p := goTrimSpace path.toList
  if p.length = 0 then none
  else if ¬ (p.take 2 = ['m', '/']) then none
  else mapOption parsePathPart ((p.splitOn '/').drop 1)

/-- Segment text after stripping trailing hardened markers, as ParsePath
does when the segment contains an apostrophe. -/
def segmentText (s : List Char) : List Char :=
  if s.contains apostrophe then (s.reverse.dropWhile (fun c => c = apostrophe)).reverse else s

/-- A decimal text accepted by Go strconv.Atoi: optional sign, one or more
digits, value within the signed 64-bit range. -/
def isInt64Text (s : List Char) : Bool :=
  match s with
  | [] => false
  | c :: rest =>
    let ds := if c.toNat = 45 ∨ c.toNat = 43 then rest else s
    ds ≠ [] && ds.all isDecDigit &&
      (if c.toNat = 45 then digitsNat ds ≤ 9223372036854775808
       else digitsNat ds ≤ 9223372036854775807)

/-! ## Variant-BIP32 derivation (src/lnd/hdkeychain.go, DeriveChildren)

The btcd hdkeychain extended key is modelled with the fields that its
canonical serialization stores; the in-memory private key bytes are kept as
produced (big.Int.Bytes strips leading zeros), because the legacy
DeriveNonStandard hardened branch mis-pads exactly those bytes.  The
cryptographic core (HMAC-SHA512, public key serialization, fingerprint,
curve order) is an explicit parameter. -/

structure BIP32Crypto where
  hmac512 : List Nat → List Nat → Nat × List Nat
  serPub : Nat → List Nat
  fingerprint : Nat → List Nat
  n : Nat

structure ExtKey where
  depth : Nat
  parentFP : List Nat
  childIndex : Nat
  chainCode : List Nat
  keyBytes : List Nat
deriving DecidableEq

/-- Scalar value of the stored private key bytes. -/
def ExtKey.keyVal (k : ExtKey) : Nat := bytesToNat k.keyBytes

/-- The serialization-relevant content of an extended key: what its
canonical string form encodes (byte padding of the key normalized away). -/
def ExtKey.canon (k : ExtKey) : Nat × List Nat × Nat × List Nat × Nat :=
  (k.depth, k.parentFP, k.childIndex, k.chainCode, k.keyVal)

/-- HMAC input data of the legacy DeriveNonStandard: the hardened branch
left-aligns the parent key bytes inside the 33-byte field, the non-hardened
branch uses the compressed public key. -/
def bip32DataNS (C : BIP32Crypto) (k : ExtKey) (i : Nat) : List Nat :=
  if hardenedKeyStart ≤ i then 0 :: leftAlign32 k.keyBytes ++ ser32 i
  else C.serPub k.keyVal ++ ser32 i

/-- HMAC input data of the standard BIP32 Derive: the hardened branch pads
the parent key on the left to a full 32 bytes. -/
def bip32DataStd (C : BIP32Crypto) (k : ExtKey) (i : Nat) : List Nat :=
  if hardenedKeyStart ≤ i then 0 :: pad32 k.keyBytes ++ ser32 i
  else C.serPub k.keyVal ++ ser32 i

/-- Legacy child derivation (btcd DeriveNonStandard): depth limit check,
HMAC over the legacy data, intermediate-key validity check, child key
il + parent mod n stored with leading zeros stripped. -/
def deriveNonStandard (C : BIP32Crypto) (k : ExtKey) (i : Nat) : Option ExtKey :=
  if k.depth = 255 then none
  else if C.n ≤ (C.hmac512 k.chainCode (bip32DataNS C k i)).1 ∨
      (C.hmac512 k.chainCode (bip32DataNS C k i)).1 = 0 then none
  else
    some { depth := k.depth + 1, parentFP := C.fingerprint k.keyVal,
           childIndex := i,
           chainCode := (C.hmac512 k.chainCode (bip32DataNS C k i)).2,
           keyBytes := natToBytes
             (((C.hmac512 k.chainCode (bip32DataNS C k i)).1 + k.keyVal) % C.n) }

/-- Standard BIP32 private child derivation (btcd Derive), identical to
`deriveNonStandard` except for the properly padded hardened HMAC data. -/
def deriveStandard (C : BIP32Crypto) (k : ExtKey) (i : Nat) : Option ExtKey :=
  if k.depth = 255 then none
  else if C.n ≤ (C.hmac512 k.chainCode (bip32DataStd C k i)).1 ∨
      (C.hmac512 k.chainCode (bip32DataStd C k i)).1 = 0 then none
  else
    some { depth := k.depth + 1, parentFP := C.fingerprint k.keyVal,
           childIndex := i,
           chainCode := (C.hmac512 k.chainCode (bip32DataStd C k i)).2,
           keyBytes := natToBytes
             (((C.hmac512 k.chainCode (bip32DataStd C k i)).1 + k.keyVal) % C.n) }

/-- Round trip through the canonical serialized string form
(ExtendedKey.String followed by NewKeyFromString): parsing checks that the
private key is in the valid scalar range and re-reads the key field as a
full 32-byte slice, so the key bytes come back left-padded. -/
def roundTripKey (C : BIP32Crypto) (k : ExtKey) : Option ExtKey :=
  if k.keyVal = 0 ∨ C.n ≤ k.keyVal then none
  else some { k with keyBytes := pad32 k.keyBytes }

/-- The nextID computed by DeriveChildren: the following path segment minus
the hardened offset in wrapping uint32 arithmetic, but only at depth 2 of a
path longer than two segments. -/
def nextPathID (path : List Nat) (idx depth : Nat) : Nat :=
  if depth = 2 ∧ 2 < path.length then sub32 (path.getD (idx + 1) 0) hardenedKeyStart
  else 0

/-- The serialize and de-serialize condition of DeriveChildren:
(depth == 2 AND nextID != 0) OR (depth == 3 AND keyID != 0), where keyID is
the current segment minus the hardened offset in wrapping uint32
arithmetic. -/
def needsRoundTrip (path : List Nat) (idx depth part : Nat) : Bool :=
  (depth == 2 && nextPathID path idx depth != 0) ||
    (depth == 3 && sub32 part hardenedKeyStart != 0)

/-- Loop body of DeriveChildren.  The Go code reads path[idx+1] when depth
is 2 and the path is longer than two segments; if that access is out of
range the program panics, modelled as `none`. -/
def deriveChildrenGo (C : BIP32Crypto) (path : List Nat) :
    List Nat → Nat → ExtKey → Option ExtKey
  | [], _, current => some current
  | part :: rest, idx, current =>
    match deriveNonStandard C current part with
    | none => none
    | some derivedKey =>
      if derivedKey.depth = 2 ∧ 2 < path.length ∧ path.length ≤ idx + 1 then none
      else if needsRoundTrip path idx derivedKey.depth part then
        match roundTripKey C derivedKey with
        | none => none
        | some rk => deriveChildrenGo C path rest (idx + 1) rk
      else deriveChildrenGo C path rest (idx + 1) derivedKey

/-- DeriveChildren from src/lnd/hdkeychain.go. -/
def DeriveChildren (C : BIP32Crypto) (key : ExtKey) (path : List Nat) :
    Option ExtKey :=
  deriveChildrenGo C path path 0 key

/-- Plain iterative BIP32 derivation: fold the standard child derivation
over the path with no depth-dependent re-serialization. -/
def deriveIter (C : BIP32Crypto) : ExtKey → List Nat → Option ExtKey
  | k, [] => some k
  | k, i :: rest =>
    match deriveStandard C k i with
    | none => none
    | some k2 => deriveIter C k2 rest

/-- Concrete crypto instance for the C1 witness: a toy HMAC and curve
order, enough to evaluate the derivation model on explicit inputs. -/
def bip32CryptoW : BIP32Crypto :=
  { hmac512 := fun _ _ => (1, [2]), serPub := fun v => [2, v % 256],
    fingerprint := fun _ => [9, 9, 9, 9], n := 97 }

/-- Concrete root extended key for the C1 witness. -/
def extKeyW : ExtKey :=
  { depth := 0, parentFP := [0, 0, 0, 0], childIndex := 0,
    chainCode := [7], keyBytes := [1] }

/-- The extended key DeriveChildren produces from `extKeyW` on path [0]
under `bip32CryptoW`. -/
def extKeyW1 : ExtKey :=
  { depth := 1, parentFP := [9, 9, 9, 9], childIndex := 0,
    chainCode := [2], keyBytes := [2] }

/-! ## CLN HKDF-chain funding key (src/cln, FundingKey and HkdfSha256)

HKDF-SHA256 itself and the secp256k1 private-to-public conversion are
abstract function parameters; the chaining structure, the domain-separation
info strings and the salt layout are translated from the source. -/

/-- The ASCII bytes of the stage-1 info string. -/
def InfoPeerSeed : List Nat := "peer seed".data.map Char.toNat

/-- The ASCII bytes of the stage-2 info string. -/
def InfoPerPeer : List Nat := "per-peer seed".data.map Char.toNat

/-- The ASCII bytes of the stage-3 info string. -/
def InfoCLightning : List Nat := "c-lightning".data.map Char.toNat

structure ClnCrypto where
  hkdf : List Nat → List Nat → List Nat → List Nat
  privToPub : List Nat → List Nat

/-- FundingKey from the cln package: three chained HKDF-SHA256 expansions.
The stage-2 salt is built by copying the compressed peer key into the first
33 bytes of a fixed 41-byte buffer and writing the channel index as 8
little-endian bytes after it, exactly as the Go copy and PutUint64 do. -/
def FundingKey (C : ClnCrypto) (hsmSecret peerPubKey : List Nat)
    (channelNum : Nat) : List Nat :=
  let channelBase := C.hkdf hsmSecret [] InfoPeerSeed
  let peerAndChannel :=
    (peerPubKey.take 33 ++ List.replicate (33 - peerPubKey.length) 0) ++
      le64 channelNum
  let channelSeed := C.hkdf channelBase peerAndChannel InfoPerPeer
  let fundingKey := C.hkdf channelSeed [] InfoCLightning
  C.privToPub fundingKey

/-- The derivation chain exactly as the specification words it: stage 1
keyed by the raw secret with no salt and info peer seed; stage 2 keyed by
the stage-1 output, salted with the 33-byte compressed counterparty key
followed by the 64-bit channel index in little-endian, info per-peer seed;
stage 3 keyed by the stage-2 output with no salt and info c-lightning,
whose output is read as the funding private key and converted to its
public key. -/
def fundingKeySpecChain (C : ClnCrypto) (secret peerSer : List Nat)
    (channelNum : Nat) : List Nat :=
  C.privToPub
    (C.hkdf
      (C.hkdf (C.hkdf secret [] InfoPeerSeed) (peerSer ++ le64 channelNum)
        InfoPerPeer)
      [] InfoCLightning)

/-- Concrete crypto instance for the C3 witness. -/
def clnCryptoW : ClnCrypto :=
  { hkdf := fun key salt info => key ++ salt ++ info,
    privToPub := fun priv => 2 :: priv }

/-! ## Sweep transaction builder (src/cmd/chantools/sweepremoteclosed.go)

The assembly loop, dust check, fee computation, output construction and
signing dispatch of sweepRemoteClosed.  The weight estimator is additive
(one fixed contribution per input by script family plus the sweep-output
and overhead contribution recorded up front), matching the
TxWeightEstimator calls; its concrete constants are a parameter. -/

def sweepDustLimit : Nat := 600

def maxTxInSequenceNum : Nat := 4294967295

inductive AddrFamily
  | p2wkh
  | p2wsh
  | p2tr
deriving DecidableEq

structure SweepUtxo where
  value : Int
deriving DecidableEq

structure SweepTarget where
  family : AddrFamily
  utxos : List SweepUtxo
  ctrlBlockOk : Bool
deriving DecidableEq

/-- Go uint64 conversion of an int64 amount (two's complement wrap). -/
def u64 (v : Int) : Nat := (v % (18446744073709551616 : Int)).toNat

/-- Go int64 conversion of a uint64 value: the low 64 bits reinterpreted
as a signed two's complement number, wrapping for values at least 2^63. -/
def i64 (n : Nat) : Int :=
  if n % 18446744073709551616 < 9223372036854775808 then
    ((n % 18446744073709551616 : Nat) : Int)
  else ((n % 18446744073709551616 : Nat) : Int) - 18446744073709551616

/-- The running totalOutputValue accumulated by the input loop, one wrapped
uint64 addition per utxo. -/
def totalOutputValue (targets : List SweepTarget) : Nat :=
  targets.foldl
    (fun acc t => t.utxos.foldl (fun a u => (a + u64 u.value) % 18446744073709551616) acc) 0

/-- Input sequence numbers: every input is created with the maximum
sequence number, and the witness-script-hash and taproot switch branches
overwrite it with 1 (the one-block CSV to-remote delay). -/
def seqForFamily : AddrFamily → Nat
  | .p2wkh => maxTxInSequenceNum
  | .p2wsh => 1
  | .p2tr => 1

structure SweepTxIn where
  family : AddrFamily
  sequence : Nat
deriving DecidableEq

structure SweepTxOut where
  value : Int
  pkScript : List Nat
deriving DecidableEq

/-- The transaction inputs the loop appends: one per utxo, in target order,
with the family-dependent sequence number. -/
def collectTxIns (targets : List SweepTarget) : List SweepTxIn :=
  (targets.map fun t =>
    t.utxos.map fun _ =>
      { family := t.family, sequence := seqForFamily t.family : SweepTxIn }).flatten

/-- The loop aborts if a taproot target with at least one utxo cannot
produce its settle-leaf control block; this happens before the dust
check. -/
def ctrlBlocksOk (targets : List SweepTarget) : Bool :=
  targets.all fun t =>
    !(t.family == AddrFamily.p2tr) || t.utxos.isEmpty || t.ctrlBlockOk

structure WeightModel where
  base : Nat
  p2wkhInput : Nat
  anchorInput : Nat
  taprootInput : Nat

def inputWeight (W : WeightModel) : AddrFamily → Nat
  | .p2wkh => W.p2wkhInput
  | .p2wsh => W.anchorInput
  | .p2tr => W.taprootInput

/-- TxWeightEstimator total weight: base contribution plus one fixed
contribution per input by family. -/
def estimatedWeight (W : WeightModel) (targets : List SweepTarget) : Nat :=
  W.base +
    targets.foldl (fun acc t => acc + t.utxos.length * inputWeight W t.family) 0

/-- chainfee.SatPerKVByte.FeePerKWeight: division by the witness scale
factor 4. -/
def feePerKWeight (satPerKVByte : Nat) : Nat := satPerKVByte / 4

/-- chainfee.SatPerKWeight.FeeForWeight: rate times weight, divided by
1000. -/
def feeForWeight (satPerKW weight : Nat) : Nat := satPerKW * weight / 1000

/-- The totalFee of sweepRemoteClosed: the per-vbyte fee rate times 1000
(a wrapping uint32 multiply in the source, since feeRate is uint32),
converted to a per-kiloweight rate, applied to the estimated weight. -/
def sweepTotalFee (W : WeightModel) (targets : List SweepTarget)
    (feeRate : Nat) : Nat :=
  feeForWeight (feePerKWeight (1000 * feeRate % 4294967296))
    (estimatedWeight W targets)

inductive SweepError
  | insufficientFunds (numTargets totalValue : Nat)
  | ctrlBlockError
  | signError
deriving DecidableEq

structure SweepResult where
  txIns : List SweepTxIn
  txOuts : List SweepTxOut
  fee : Nat
deriving DecidableEq

/-- The unsigned-transaction assembly of sweepRemoteClosed: the input loop
(with its taproot control-block failure point), then the dust check on the
raw aggregate input value, then the fee and the single output whose value
is the int64 conversion of the uint64 total minus the fee. -/
def buildSweep (W : WeightModel) (sweepScript : List Nat)
    (targets : List SweepTarget) (feeRate : Nat) :
    Except SweepError SweepResult :=
  if ¬ ctrlBlocksOk targets then .error .ctrlBlockError
  else if targets.length = 0 ∨ totalOutputValue targets < sweepDustLimit then
    .error (.insufficientFunds targets.length (totalOutputValue targets))
  else
    .ok { txIns := collectTxIns targets,
          txOuts := [⟨i64 (totalOutputValue targets) -
            (sweepTotalFee W targets feeRate : Int), sweepScript⟩],
          fee := sweepTotalFee W targets feeRate }

/-- The per-input signing loop: the first failing input aborts the whole
sweep. -/
def signAll (signer : SweepTxIn → Option (List Nat)) :
    List SweepTxIn → Option (List (List Nat))
  | [] => some []
  | i :: rest =>
    match signer i with
    | none => none
    | some w => (signAll signer rest).map (w :: ·)

/-- Assembly followed by signing: assembly errors surface before any
signing step, and a signing failure aborts with signError. -/
def buildAndSign (W : WeightModel) (sweepScript : List Nat)
    (signer : SweepTxIn → Option (List Nat)) (targets : List SweepTarget)
    (feeRate : Nat) : Except SweepError (SweepResult × List (List Nat)) :=
  match buildSweep W sweepScript targets feeRate with
  | .error e => .error e
  | .ok r =>
    match signAll signer r.txIns with
    | none => .error .signError
    | some ws => .ok (r, ws)

/-- Recognizer for the InsufficientFunds error kind. -/
def isInsufficient {α : Type} : Except SweepError α → Bool
  | .error (.insufficientFunds _ _) => true
  | _ => false

/-- The fee as the specification words it: the per-vbyte rate converted to
a per-kiloweight rate (times 1000, divided by the witness scale factor 4)
and applied to the estimated weight with the standard division by 1000. -/
def specFee (feeRate weight : Nat) : Nat := 1000 * feeRate / 4 * weight / 1000

/-- Concrete weight constants for sweep witnesses. -/
def weightModelW : WeightModel :=
  { base := 300, p2wkhInput := 272, anchorInput := 364, taprootInput := 260 }

/-- A single plain-key-hash target holding one utxo worth exactly the dust
limit. -/
def sweepTargetW : SweepTarget :=
  { family := AddrFamily.p2wkh, utxos := [{ value := 600 }],
    ctrlBlockOk := true }

/-- A signer that signs every input, for witnesses. -/
def signerW : SweepTxIn → Option (List Nat) := fun _ => some [1]

instance {ε α : Type} [DecidableEq ε] [DecidableEq α] :
    DecidableEq (Except ε α) := fun a b =>
  match a, b with
  | .error e1, .error e2 =>
    if h : e1 = e2 then isTrue (by rw [h])
    else isFalse (fun hc => h (by injection hc))
  | .error _, .ok _ => isFalse (fun hc => Except.noConfusion hc)
  | .ok _, .error _ => isFalse (fun hc => Except.noConfusion hc)
  | .ok a1, .ok a2 =>
    if h : a1 = a2 then isTrue (by rw [h])
    else isFalse (fun hc => h (by injection hc))

/-- Weight constants whose base is large enough that the estimated fee
exceeds a dust-level input total. -/
def weightModelW8 : WeightModel :=
  { base := 1000000, p2wkhInput := 272, anchorInput := 364,
    taprootInput := 260 }

/-- Targets covering all three script families, for the C9 witness. -/
def sweepTargetsW9 : List SweepTarget :=
  [⟨AddrFamily.p2wkh, [⟨600⟩], true⟩, ⟨AddrFamily.p2wsh, [⟨700⟩], true⟩,
    ⟨AddrFamily.p2tr, [⟨800⟩], true⟩]

/-! ## Ancient channel matching and the error propagation policy
(src/cmd/chantools/sweepremoteclosed.go, findAncientChannels and its
caller in sweepRemoteClosed)

The fillCache and keyInCache bodies are not part of the sources; the pair
is abstracted as an environment whose cache lookup either returns a key
locator with its tweak or fails, with addrNotFound meaning that no index in
the recovery window reproduces the close address. -/

inductive AErr
  | addrNotFound
  | parseErr (msg : String)
  | lookupErr (msg : String)
  | otherErr (code : Nat)
deriving DecidableEq

structure AncientChannel where
  op : String
  addr : String
  cp : String
deriving DecidableEq

structure AncientEnv where
  decodeCommitPoint : String → Except AErr (List Nat)
  parseAddr : String → Except AErr String
  keyInCache : Nat → String → List Nat → Except AErr (Nat × List Nat)

/-- The record loop of findAncientChannels: per record, decode the commit
point, parse the address and look the pair up in the cache; a hit collects
the record, errAddrNotFound skips to the next record, any other error
aborts the whole operation. -/
def processAncient (env : AncientEnv) (numKeys : Nat) :
    List AncientChannel → Except AErr (List AncientChannel)
  | [] => .ok []
  | ch :: rest =>
    match env.decodeCommitPoint ch.cp with
    | .error e => .error e
    | .ok cp =>
      match env.parseAddr ch.addr with
      | .error e => .error e
      | .ok addr =>
        match env.keyInCache numKeys addr cp with
        | .ok _ =>
          match processAncient env numKeys rest with
          | .error e => .error e
          | .ok found => .ok (ch :: found)
        | .error e =>
          if e = AErr.addrNotFound then processAncient env numKeys rest
          else .error e

/-- findAncientChannels: fill the derivation cache once (a failure aborts),
then run the record loop. -/
def findAncientChannels (env : AncientEnv) (fillCacheRes : Except AErr Unit)
    (channels : List AncientChannel) (numKeys : Nat) :
    Except AErr (List AncientChannel) :=
  match fillCacheRes with
  | .error e => .error e
  | .ok _ => processAncient env numKeys channels

/-- The caller in sweepRemoteClosed: the ancient-channel targets are
appended to the scanner results; an error aborts the sweep unless it is
errAddrNotFound, in which case the scanner results alone are kept. -/
def combineTargets {τ : Type} (scanTargets : List τ)
    (ancient : Except AErr (List τ)) : Except AErr (List τ) :=
  match ancient with
  | .error e => if e = AErr.addrNotFound then .ok scanTargets else .error e
  | .ok ts => .ok (scanTargets ++ ts)

/-- Concrete collaborators for the C5 witness: the lookup misses on one
known address. -/
def ancientEnvW : AncientEnv :=
  { decodeCommitPoint := fun _ => .ok [2],
    parseAddr := fun a => .ok a,
    keyInCache := fun _ addr _ =>
      if addr = "miss" then .error AErr.addrNotFound else .ok (42, [1]) }

/-! ## Balance scanner (sweepRemoteClosed index loop and
queryAddressBalances)

The derivation steps and the chain-lookup collaborator are abstract; a
candidate address is identified by its derivation index and script
family. -/

structure ScanEnv where
  deriveOk : Nat → Bool
  unspent : Nat → AddrFamily → Except AErr (List SweepUtxo)

structure ScanTarget where
  index : Nat
  family : AddrFamily
  utxos : List SweepUtxo
deriving DecidableEq

/-- queryAddr inside queryAddressBalances: one chain lookup; a populated
target is collected exactly when at least one unspent output exists, and
an address without unspent outputs contributes nothing. -/
def queryOneAddress (env : ScanEnv) (idx : Nat) (fam : AddrFamily) :
    Except AErr (List ScanTarget) :=
  match env.unspent idx fam with
  | .error e => .error e
  | .ok us => .ok (if 0 < us.length then [⟨idx, fam, us⟩] else [])

/-- queryAddressBalances: the three candidate addresses of a derived key,
queried in the fixed source order: plain witness key hash, anchor
witness-script hash, taproot. -/
def queryAddressBalances (env : ScanEnv) (idx : Nat) :
    Except AErr (List ScanTarget) :=
  match queryOneAddress env idx AddrFamily.p2wkh with
  | .error e => .error e
  | .ok t1 =>
    match queryOneAddress env idx AddrFamily.p2wsh with
    | .error e => .error e
    | .ok t2 =>
      match queryOneAddress env idx AddrFamily.p2tr with
      | .error e => .error e
      | .ok t3 => .ok (t1 ++ t2 ++ t3)

/-- The index loop of sweepRemoteClosed: derive the payment-base key at
each index (a failure aborts), query the balances and append the found
targets in loop order. -/
def sweepScanGo (env : ScanEnv) : List Nat → Except AErr (List ScanTarget)
  | [] => .ok []
  | i :: rest =>
    if env.deriveOk i then
      match queryAddressBalances env i with
      | .error e => .error e
      | .ok ts =>
        match sweepScanGo env rest with
        | .error e => .error e
        | .ok more => .ok (ts ++ more)
    else .error (.parseErr "derive")

/-- The scan over a recovery window: the loop body at every index from 0
to the window bound, exclusive, in ascending order. -/
def sweepScan (env : ScanEnv) (w : Nat) : Except AErr (List ScanTarget) :=
  sweepScanGo env (List.range w)

/-- One candidate lookup as the specification describes it: a populated
target for an address with unspent outputs, nothing otherwise. -/
def scanCollect (env : ScanEnv) (q : Nat × AddrFamily) : Option ScanTarget :=
  match env.unspent q.1 q.2 with
  | .ok us => if 0 < us.length then some ⟨q.1, q.2, us⟩ else none
  | .error _ => none

/-- All candidate queries of a window, as the specification describes the
scan: every index below the window in ascending order, all three script
families each. -/
def candidateQueries (w : Nat) : List (Nat × AddrFamily) :=
  (List.range w).flatMap (fun i =>
    [(i, AddrFamily.p2wkh), (i, AddrFamily.p2wsh), (i, AddrFamily.p2tr)])

/-- The scan result as the specification describes it: the collected
lookups over all candidate queries of the full window. -/
def scanSpecTargets (env : ScanEnv) (w : Nat) : List ScanTarget :=
  (candidateQueries w).filterMap (scanCollect env)

/-- Concrete scanner environment for the C6 witness: only index 1 holds
funds, on the plain witness-key-hash address. -/
def scanEnvW : ScanEnv :=
  { deriveOk := fun _ => true,
    unspent := fun i fam =>
      .ok (if i = 1 ∧ fam = AddrFamily.p2wkh then [⟨100⟩] else []) }

/-! ## Target generators (src/lnd/hdkeychain.go, P2WKHAddr,
P2AnchorStaticRemote and the taproot static-remote script tree)

A public key is a curve point; the btcec compressed serialization is the
parity prefix byte followed by the 32-byte big-endian x coordinate, and the
schnorr serialization is the x coordinate alone.  The hash functions and
the taproot output-key construction (NUMS internal key tweaked by the tree
root, a function of the settle-leaf script) are abstract parameters.  The
script bytes are the opcodes produced by the lnd input package: the
confirmed to-remote script is OP_DATA_33 key OP_CHECKSIGVERIFY OP_1
OP_CHECKSEQUENCEVERIFY, the taproot settle leaf is OP_DATA_32 key
OP_CHECKSIG OP_1 OP_CHECKSEQUENCEVERIFY OP_DROP. -/

structure PubKey where
  x : Nat
  y : Nat
deriving DecidableEq

/-- Big-endian 32-byte serialization of a coordinate. -/
def be32 (n : Nat) : List Nat :=
  ((List.range 32).reverse).map (fun i => n / 256 ^ i % 256)

/-- btcec SerializeCompressed: 2 or 3 by y parity, then the x bytes. -/
def serializeCompressed (pk : PubKey) : List Nat :=
  (if pk.y % 2 = 0 then 2 else 3) :: be32 pk.x

/-- schnorr.SerializePubKey: the 32-byte x coordinate only. -/
def serializeSchnorr (pk : PubKey) : List Nat := be32 pk.x

structure AddrCrypto where
  hash160 : List Nat → List Nat
  sha256 : List Nat → List Nat
  taprootOutputKey : List Nat → List Nat

/-- input.CommitScriptToRemoteConfirmed script bytes. -/
def commitScriptToRemoteConfirmed (pk : PubKey) : List Nat :=
  33 :: serializeCompressed pk ++ [173, 81, 178]

/-- The taproot to-remote settle-leaf script bytes. -/
def taprootRemoteScript (pk : PubKey) : List Nat :=
  32 :: serializeSchnorr pk ++ [172, 81, 178, 117]

/-- P2WKHAddr: the witness program is the hash160 of the compressed key. -/
def P2WKHAddr (C : AddrCrypto) (pk : PubKey) : List Nat :=
  C.hash160 (serializeCompressed pk)

/-- P2AnchorStaticRemote: the witness-script-hash program (sha256 of the
confirmed to-remote script) together with the script itself. -/
def P2AnchorStaticRemote (C : AddrCrypto) (pk : PubKey) :
    List Nat × List Nat :=
  (C.sha256 (commitScriptToRemoteConfirmed pk),
    commitScriptToRemoteConfirmed pk)

/-- P2TaprootStaticRemote: the taproot output key of the script tree whose
settle leaf is the to-remote condition, together with that leaf script. -/
def P2TaprootStaticRemote (C : AddrCrypto) (pk : PubKey) :
    List Nat × List Nat :=
  (C.taprootOutputKey (taprootRemoteScript pk), taprootRemoteScript pk)

/-- Concrete hash instances for the C10 witness. -/
def addrCryptoW : AddrCrypto :=
  { hash160 := fun l => l.take 20, sha256 := fun l => 7 :: l,
    taprootOutputKey := fun l => 9 :: l }

/-- A concrete public key for the C10 witness. -/
def pubKeyW : PubKey := { x := 5, y := 6 }

theorem bytesToNat_replicate_zero_append (m : Nat) (bs : List Nat) :
    bytesToNat (List.replicate m 0 ++ bs) = bytesToNat bs := by
  induction m with
  | zero => rfl
  | succ k ih =>
    simpa [bytesToNat, List.replicate_succ] using ih

theorem bytesToNat_pad32 (bs : List Nat) : bytesToNat (pad32 bs) = bytesToNat bs :=
  bytesToNat_replicate_zero_append _ bs

theorem goAtoi_isSome_iff (s : List Char) : (goAtoi s).isSome = isInt64Text s := by
  match s with
  | [] => rfl
  | c :: rest =>
    simp only [goAtoi, isInt64Text]
    split_ifs <;> simp_all <;> omega

theorem parsePathPart_isSome (s : List Char) :
    (parsePathPart s).isSome = isInt64Text (segmentText s) := by
  simp only [parsePathPart, segmentText]
  rcases h : goAtoi (if s.contains apostrophe
      then (s.reverse.dropWhile (fun c => c = apostrophe)).reverse else s) with _ | v
  · have := goAtoi_isSome_iff (if s.contains apostrophe
      then (s.reverse.dropWhile (fun c => c = apostrophe)).reverse else s)
    rw [h] at this
    simpa using this.symm
  · have := goAtoi_isSome_iff (if s.contains apostrophe
      then (s.reverse.dropWhile (fun c => c = apostrophe)).reverse else s)
    rw [h] at this
    simpa using this.symm

theorem mapOption_isSome_iff {α β : Type} (f : α → Option β) (l : List α) :
    (mapOption f l).isSome = true ↔ ∀ x ∈ l, (f x).isSome = true := by
  induction l with
  | nil => simp [mapOption]
  | cons a l ih =>
    simp only [mapOption]
    rcases h : f a with _ | b
    · simp [h]
    · rcases hrest : mapOption f l with _ | ys
      · rw [hrest] at ih
        simp only [hrest]
        simpa [h] using ih
      · rw [hrest] at ih
        simp only [hrest]
        simpa [h] using ih

theorem mapOption_mem {α β : Type} (f : α → Option β) (l : List α) (ys : List β)
    (h : mapOption f l = some ys) : ∀ y ∈ ys, ∃ x ∈ l, f x = some y := by
  induction l generalizing ys with
  | nil =>
    simp only [mapOption, Option.some.injEq] at h
    subst h
    simp
  | cons a l ih =>
    simp only [mapOption] at h
    rcases ha : f a with _ | b
    · rw [ha] at h
      exact absurd h (by simp)
    · rw [ha] at h
      rcases hrest : mapOption f l with _ | ys'
      · rw [hrest] at h
        exact absurd h (by simp)
      · rw [hrest] at h
        simp only [Option.map_some', Option.some.injEq] at h
        subst h
        intro y hy
        rcases List.mem_cons.mp hy with rfl | hy'
        · exact ⟨a, List.mem_cons_self .., ha⟩
        · obtain ⟨x, hx, hfx⟩ := ih ys' hrest y hy'
          exact ⟨x, List.mem_cons_of_mem _ hx, hfx⟩

theorem parsePathPart_lt (s : List Char) (v : Nat) (h : parsePathPart s = some v) :
    v < 2 ^ 32 := by
  simp only [parsePathPart] at h
  rcases ha : goAtoi (if s.contains apostrophe
      then (s.reverse.dropWhile (fun c => c = apostrophe)).reverse else s) with _ | w
  · rw [ha] at h
    exact absurd h (by simp)
  · rw [ha] at h
    simp only [Option.some.injEq] at h
    subst h
    exact Nat.mod_lt _ (by norm_num)

/-- C7: the claim states ParsePath succeeds only on well-formed paths whose
segments are decimal 32-bit indices, and that negative or out-of-range
segment values yield an error.  This is false: Go strconv.Atoi accepts any
int64, and the uint32 conversion silently wraps, so the path whose single
segment is the negative text -1 parses successfully to index 4294967295. -/
theorem c7_parse_path_counterexample : ParsePath "m/-1" = some [4294967295] := by
  decide

/-- C7 (amended): ParsePath fails exactly when the whitespace-trimmed text
is empty, lacks the leading m/ marker, or contains a slash-separated
segment (after stripping trailing hardened markers when an apostrophe
character is present) that is not a signed decimal 64-bit integer; accepted
values, including negative ones, are reduced modulo 2^32 and offset by the
hardened constant, so every returned index is below 2^32 but negative and
oversized segment texts are not rejected. -/
theorem c7_parse_path_amended (path : String) :
    ((ParsePath path).isSome = true ↔
      (goTrimSpace path.toList ≠ [] ∧
        (goTrimSpace path.toList).take 2 = ['m', '/'] ∧
        ∀ s ∈ ((goTrimSpace path.toList).splitOn '/').drop 1,
          isInt64Text (segmentText s) = true)) ∧
    ∀ segs, ParsePath path = some segs → ∀ x ∈ segs, x < 2 ^ 32 := by
  constructor
  · simp only [ParsePath]
    by_cases hlen : (goTrimSpace path.toList).length = 0
    · rw [if_pos hlen]
      have hp : goTrimSpace path.toList = [] := List.length_eq_zero.mp hlen
      exact iff_of_false (by simp) (fun hc => hc.1 hp)
    · rw [if_neg hlen]
      by_cases hm : (goTrimSpace path.toList).take 2 = ['m', '/']
      · rw [if_neg (by simpa using hm)]
        rw [mapOption_isSome_iff]
        have hne : goTrimSpace path.toList ≠ [] := fun h => hlen (by rw [h]; rfl)
        exact ⟨fun hall => ⟨hne, hm, fun s hs => by
            rw [← parsePathPart_isSome]; exact hall s hs⟩,
          fun hc s hs => by rw [parsePathPart_isSome]; exact hc.2.2 s hs⟩
      · rw [if_pos (by simpa using hm)]
        exact iff_of_false (by simp) (fun hc => hm hc.2.1)
  · intro segs hsegs x hx
    simp only [ParsePath] at hsegs
    by_cases hlen : (goTrimSpace path.toList).length = 0
    · rw [if_pos hlen] at hsegs
      exact absurd hsegs (by simp)
    · rw [if_neg hlen] at hsegs
      by_cases hm : (goTrimSpace path.toList).take 2 = ['m', '/']
      · rw [if_neg (by simpa using hm)] at hsegs
        obtain ⟨s, _, hfs⟩ := mapOption_mem _ _ _ hsegs x hx
        exact parsePathPart_lt s x hfs
      · rw [if_pos (by simpa using hm)] at hsegs
        exact absurd hsegs (by simp)

/-- C7 witness: the amended characterization applied to the concrete path
m/0/1 and its first parsed segment, discharging its hypotheses with the
computed parse result. -/
theorem c7_parse_path_amended_witness : (0 : Nat) < 2 ^ 32 :=
  (c7_parse_path_amended "m/0/1").2 [0, 1] (by decide) 0 (by decide)

theorem roundTripKey_canon (C : BIP32Crypto) (d rk : ExtKey)
    (h : roundTripKey C d = some rk) : rk.canon = d.canon := by
  simp only [roundTripKey] at h
  by_cases hg : d.keyVal = 0 ∨ C.n ≤ d.keyVal
  · rw [if_pos hg] at h
    exact absurd h (by simp)
  · rw [if_neg hg] at h
    have hrk : rk = { d with keyBytes := pad32 d.keyBytes } := by
      injection h with h2
      exact h2.symm
    subst hrk
    simp [ExtKey.canon, ExtKey.keyVal, bytesToNat_pad32]

theorem deriveNS_eq_std_nonhardened (C : BIP32Crypto) (k1 k2 : ExtKey) (i : Nat)
    (hc : k1.canon = k2.canon) (hi : i < hardenedKeyStart) :
    deriveNonStandard C k1 i = deriveStandard C k2 i := by
  obtain ⟨h1, h2, h3, h4, h5⟩ :
      k1.depth = k2.depth ∧ k1.parentFP = k2.parentFP ∧
        k1.childIndex = k2.childIndex ∧ k1.chainCode = k2.chainCode ∧
        k1.keyVal = k2.keyVal := by
    simpa [ExtKey.canon, Prod.ext_iff] using hc
  have hdata : bip32DataNS C k1 i = bip32DataStd C k2 i := by
    simp only [bip32DataNS, bip32DataStd, if_neg (Nat.not_le.mpr hi)]
    rw [h5]
  simp only [deriveNonStandard, deriveStandard, hdata, h1, h4, h5]

theorem deriveChildrenGo_plain (C : BIP32Crypto) (path : List Nat)
    (rest : List Nat) :
    ∀ (idx : Nat) (k1 k2 : ExtKey), (∀ x ∈ rest, x < hardenedKeyStart) →
      k1.canon = k2.canon → ∀ k, deriveChildrenGo C path rest idx k1 = some k →
      ∃ kf, deriveIter C k2 rest = some kf ∧ kf.canon = k.canon := by
  induction rest with
  | nil =>
    intro idx k1 k2 _ hc k hk
    simp only [deriveChildrenGo, Option.some.injEq] at hk
    subst hk
    exact ⟨k2, rfl, hc.symm⟩
  | cons part rest ih =>
    intro idx k1 k2 hx hc k hk
    have hstep : deriveNonStandard C k1 part = deriveStandard C k2 part :=
      deriveNS_eq_std_nonhardened C k1 k2 part hc (hx part (List.mem_cons_self ..))
    rcases hd : deriveNonStandard C k1 part with _ | d
    · simp only [deriveChildrenGo, hd] at hk
      exact Option.noConfusion hk
    · simp only [deriveChildrenGo, hd] at hk
      have hiter : deriveIter C k2 (part :: rest) = deriveIter C d rest := by
        simp only [deriveIter]
        rw [← hstep, hd]
      rw [hiter]
      by_cases hpanic : d.depth = 2 ∧ 2 < path.length ∧ path.length ≤ idx + 1
      · rw [if_pos hpanic] at hk
        exact absurd hk (by simp)
      · rw [if_neg hpanic] at hk
        by_cases hrt : needsRoundTrip path idx d.depth part = true
        · rw [if_pos hrt] at hk
          rcases hr : roundTripKey C d with _ | rk
          · rw [hr] at hk
            exact absurd hk (by simp)
          · rw [hr] at hk
            exact ih (idx + 1) rk d (fun x hm => hx x (List.mem_cons_of_mem _ hm))
              (roundTripKey_canon C d rk hr) k hk
        · rw [if_neg hrt] at hk
          exact ih (idx + 1) d d (fun x hm => hx x (List.mem_cons_of_mem _ hm))
            rfl k hk

theorem getD_map_hardened (q : List Nat) (i : Nat) (hi : i < q.length) :
    (q.map (fun a => hardenedKeyStart + a)).getD i 0 =
      hardenedKeyStart + q.getD i 0 := by
  simp [List.getD_eq_getElem?_getD, List.getElem?_map,
    List.getElem?_eq_getElem hi]

theorem sub32_hardened (a : Nat) (ha : a < hardenedKeyStart) :
    sub32 (hardenedKeyStart + a) hardenedKeyStart = a := by
  simp only [sub32, hardenedKeyStart] at *
  omega

theorem sub32_small_ne_zero (a : Nat) (ha : a < hardenedKeyStart) :
    sub32 a hardenedKeyStart ≠ 0 := by
  simp only [sub32, hardenedKeyStart] at *
  omega

/-- C1: for every root extended key and every path of non-hardened
segments, DeriveChildren agrees with plain iterative BIP32 derivation up to
the canonical serialized content of the resulting extended key (the
round-trip quirk changes nothing), and the round-trip fires exactly at
depth 2 when the next segment exists and its account index is non-zero, and
at depth 3 when the current segment index is non-zero (segments at those
depths are hardened, with account index equal to the segment minus the
hardened offset; depth at loop position idx is idx + 1 from a depth-0
root). -/
theorem c1_variant_bip32 (C : BIP32Crypto) (root : ExtKey) (p q : List Nat)
    (idx : Nat) (hnh : ∀ x ∈ p, x < hardenedKeyStart)
    (hq : ∀ a ∈ q, a < hardenedKeyStart) (hidx : idx < q.length) :
    (∀ k, DeriveChildren C root p = some k →
      ∃ kf, deriveIter C root p = some kf ∧ kf.canon = k.canon) ∧
    (needsRoundTrip (q.map (fun a => hardenedKeyStart + a)) idx (idx + 1)
        ((q.map (fun a => hardenedKeyStart + a)).getD idx 0) = true ↔
      ((idx + 1 = 2 ∧ idx + 1 < q.length ∧ q.getD (idx + 1) 0 ≠ 0) ∨
        (idx + 1 = 3 ∧ q.getD idx 0 ≠ 0))) := by
  constructor
  · intro k hk
    exact deriveChildrenGo_plain C p p 0 root root hnh rfl k
      (by simpa [DeriveChildren] using hk)
  · by_cases h2 : idx + 1 = 2
    · have hidx1 : idx = 1 := by omega
      subst hidx1
      by_cases hlen : 2 < q.length
      · have hb : q[2] < hardenedKeyStart := hq _ (List.getElem_mem _)
        have hgd : q.getD 2 0 = q[2] := List.getD_eq_getElem q 0 hlen
        have hmap : (q.map (fun a => hardenedKeyStart + a)).getD 2 0 =
            hardenedKeyStart + q[2] := by
          rw [getD_map_hardened q 2 hlen, hgd]
        simp [needsRoundTrip, nextPathID, hlen, hmap, sub32_hardened _ hb, hgd]
      · simp [needsRoundTrip, nextPathID, hlen]
    · by_cases h3 : idx + 1 = 3
      · have hidx2 : idx = 2 := by omega
        subst hidx2
        have hlen : 2 < q.length := hidx
        have hb : q[2] < hardenedKeyStart := hq _ (List.getElem_mem _)
        have hgd : q.getD 2 0 = q[2] := List.getD_eq_getElem q 0 hlen
        have hopt : q[2]? = some (q[2]) := List.getElem?_eq_getElem hlen
        have hmap : (q.map (fun a => hardenedKeyStart + a)).getD 2 0 =
            hardenedKeyStart + q[2] := by
          rw [getD_map_hardened q 2 hlen, hgd]
        simp [needsRoundTrip, nextPathID, hmap, hopt, sub32_hardened _ hb, hgd]
      · simp only [needsRoundTrip, nextPathID, Bool.or_eq_true,
          Bool.and_eq_true, beq_iff_eq, bne_iff_ne, ne_eq]
        constructor
        · intro h
          rcases h with ⟨ha, _⟩ | ⟨ha, _⟩ <;> omega
        · intro h
          rcases h with ⟨ha, _⟩ | ⟨ha, _⟩ <;> omega

/-- C1 witness: the equivalence applied to a concrete root, the concrete
non-hardened path [0], and the concrete hardened lnd-style path indices
[1017, 0, 6, 0, 0] at loop position 1, all hypotheses evaluated. -/
theorem c1_variant_bip32_witness :
    ∃ kf, deriveIter bip32CryptoW extKeyW [0] = some kf ∧
      kf.canon = extKeyW1.canon :=
  (c1_variant_bip32 bip32CryptoW extKeyW [0] [1017, 0, 6, 0, 0] 1 (by decide)
    (by decide) (by decide)).1 extKeyW1 (by decide)

/-- C3: for every secret, every 33-byte compressed counterparty key and
every channel index, FundingKey equals the three-stage HKDF chain described
by the specification. -/
theorem c3_funding_key (C : ClnCrypto) (hsmSecret peerPubKey : List Nat)
    (channelNum : Nat) (hlen : peerPubKey.length = 33) :
    FundingKey C hsmSecret peerPubKey channelNum =
      fundingKeySpecChain C hsmSecret peerPubKey channelNum := by
  have h1 : peerPubKey.take 33 = peerPubKey := by
    rw [← hlen]
    exact List.take_length peerPubKey
  have h2 : List.replicate (33 - peerPubKey.length) 0 = ([] : List Nat) := by
    rw [hlen]
    rfl
  simp [FundingKey, fundingKeySpecChain, h1, h2]

/-- C3 witness: the equivalence applied at a concrete secret, a concrete
33-byte peer key and channel index 1. -/
theorem c3_funding_key_witness :
    FundingKey clnCryptoW (List.replicate 32 1) (List.replicate 33 2) 1 =
      fundingKeySpecChain clnCryptoW (List.replicate 32 1)
        (List.replicate 33 2) 1 :=
  c3_funding_key clnCryptoW (List.replicate 32 1) (List.replicate 33 2) 1
    (by decide)

theorem i64_of_lt (n : Nat) (h : n < 9223372036854775808) :
    i64 n = (n : Int) := by
  have hm : n % 18446744073709551616 = n := Nat.mod_eq_of_lt (by omega)
  simp only [i64, hm]
  rw [if_pos h]

theorem buildSweep_ok_elim (W : WeightModel) (script : List Nat)
    (targets : List SweepTarget) (feeRate : Nat) (r : SweepResult)
    (h : buildSweep W script targets feeRate = .ok r) :
    r = ⟨collectTxIns targets,
      [⟨i64 (totalOutputValue targets) -
        (sweepTotalFee W targets feeRate : Int), script⟩],
      sweepTotalFee W targets feeRate⟩ := by
  simp only [buildSweep] at h
  by_cases hc : ctrlBlocksOk targets = true
  · rw [if_neg (not_not_intro hc)] at h
    by_cases hd : targets.length = 0 ∨ totalOutputValue targets < sweepDustLimit
    · rw [if_pos hd] at h
      exact absurd h (by simp)
    · rw [if_neg hd] at h
      injection h with h2
      exact h2.symm
  · rw [if_pos hc] at h
    exact absurd h (by simp)

/-- C4: the claim states the fee of every successful build equals the
standard weight-to-vbyte-to-fee conversion of the per-vbyte rate.  This is
false: feeRate is a uint32 in the source and 1000 * feeRate is a wrapping
uint32 multiply, so at fee rate 4294968 the program computes the fee from
the wrapped rate 704 (giving fee 100 on a 572-weight transaction) while
the standard conversion gives 614180424; the build still succeeds. -/
theorem c4_sweep_output_counterexample :
    buildSweep weightModelW [0] [sweepTargetW] 4294968 =
      .ok ⟨[⟨AddrFamily.p2wkh, 4294967295⟩], [⟨500, [0]⟩], 100⟩ ∧
    sweepTotalFee weightModelW [sweepTargetW] 4294968 ≠
      specFee 4294968 (estimatedWeight weightModelW [sweepTargetW]) := by
  decide

/-- C4 (amended): on every successful build the transaction has exactly
one output paying the sweep script, its value is the int64 conversion of
the total input value minus the fee (equal to total minus fee whenever the
total is below 2^63), and the fee agrees with the standard
weight-to-vbyte-to-fee conversion exactly when the uint32 product
1000 * feeRate does not wrap, that is for fee rates below 4294968. -/
theorem c4_sweep_output_amended (W : WeightModel) (script : List Nat)
    (targets : List SweepTarget) (feeRate : Nat) (r : SweepResult)
    (h : buildSweep W script targets feeRate = .ok r) :
    (∃ v, r.txOuts = [⟨v, script⟩]) ∧
    (totalOutputValue targets < 9223372036854775808 →
      r.txOuts = [⟨(totalOutputValue targets : Int) -
        (sweepTotalFee W targets feeRate : Int), script⟩]) ∧
    (feeRate < 4294968 →
      sweepTotalFee W targets feeRate =
        specFee feeRate (estimatedWeight W targets)) := by
  rw [buildSweep_ok_elim W script targets feeRate r h]
  refine ⟨⟨_, rfl⟩, ?_, ?_⟩
  · intro h63
    simp only [SweepTxOut.mk.injEq, List.cons.injEq, and_true]
    rw [i64_of_lt _ h63]
  · intro hrate
    have hw : 1000 * feeRate % 4294967296 = 1000 * feeRate :=
      Nat.mod_eq_of_lt (by omega)
    simp only [sweepTotalFee, specFee, feePerKWeight, feeForWeight, hw]

/-- C4 witness: the amended output-shape theorem applied to a concrete
build, its hypotheses evaluated. -/
theorem c4_sweep_output_amended_witness :
    (∃ v, (⟨[⟨AddrFamily.p2wkh, 4294967295⟩], [⟨-830, [0]⟩], 1430⟩ :
        SweepResult).txOuts = [⟨v, [0]⟩]) ∧
    (totalOutputValue [sweepTargetW] < 9223372036854775808 →
      (⟨[⟨AddrFamily.p2wkh, 4294967295⟩], [⟨-830, [0]⟩], 1430⟩ :
          SweepResult).txOuts =
        [⟨(totalOutputValue [sweepTargetW] : Int) -
          (sweepTotalFee weightModelW [sweepTargetW] 10 : Int), [0]⟩]) ∧
    (10 < 4294968 →
      sweepTotalFee weightModelW [sweepTargetW] 10 =
        specFee 10 (estimatedWeight weightModelW [sweepTargetW])) :=
  c4_sweep_output_amended weightModelW [0] [sweepTargetW] 10
    ⟨[⟨AddrFamily.p2wkh, 4294967295⟩], [⟨-830, [0]⟩], 1430⟩ (by decide)

/-- C2: the claim states the build fails with InsufficientFunds exactly
when the input value minus the estimated fee is below 600.  This is false:
the code compares the raw input value against 600 before subtracting the
fee, so a 600-unit utxo with a 1430-unit fee is below the claimed
threshold yet the build succeeds and proceeds to signing (with a negative
output value). -/
theorem c2_insufficient_funds_counterexample :
    ((600 : Int) - (sweepTotalFee weightModelW [sweepTargetW] 10 : Int) < 600) ∧
    isInsufficient
      (buildAndSign weightModelW [0] signerW [sweepTargetW] 10) = false ∧
    buildAndSign weightModelW [0] signerW [sweepTargetW] 10 =
      .ok (⟨[⟨AddrFamily.p2wkh, 4294967295⟩], [⟨-830, [0]⟩], 1430⟩, [[1]]) := by
  decide

/-- C2 (amended): for a single plain-key-hash utxo of value V the build
fails with InsufficientFunds, before any signing, exactly when V is below
the 600-unit dust floor; the comparison is made on the raw aggregate input
value before fee subtraction, and when V is at least 600 the builder
proceeds to the signing stage regardless of the fee. -/
theorem c2_insufficient_funds_amended (W : WeightModel) (script : List Nat)
    (signer : SweepTxIn → Option (List Nat)) (feeRate : Nat) (V : Int)
    (h0 : 0 ≤ V) (h1 : V < 2 ^ 63) :
    (isInsufficient (buildAndSign W script signer
        [⟨AddrFamily.p2wkh, [⟨V⟩], true⟩] feeRate) = true ↔ V < 600) ∧
    (600 ≤ V →
      buildAndSign W script signer [⟨AddrFamily.p2wkh, [⟨V⟩], true⟩] feeRate =
          .error .signError ∨
        ∃ res ws, buildAndSign W script signer
            [⟨AddrFamily.p2wkh, [⟨V⟩], true⟩] feeRate = .ok (res, ws)) := by
  have h1l : V < 9223372036854775808 := by
    have h2 : ((2 : Int) ^ 63) = 9223372036854775808 := by norm_num
    omega
  have htot : totalOutputValue [⟨AddrFamily.p2wkh, [⟨V⟩], true⟩] = V.toNat := by
    simp only [totalOutputValue, List.foldl, u64]
    omega
  have hctrl : ctrlBlocksOk [⟨AddrFamily.p2wkh, [⟨V⟩], true⟩] = true := rfl
  constructor
  · by_cases hV : V < 600
    · have hVn : totalOutputValue [⟨AddrFamily.p2wkh, [⟨V⟩], true⟩] <
          sweepDustLimit := by
        rw [htot]
        simp only [sweepDustLimit]
        omega
      have hbuild : buildSweep W script [⟨AddrFamily.p2wkh, [⟨V⟩], true⟩]
          feeRate = .error (.insufficientFunds 1
            (totalOutputValue [⟨AddrFamily.p2wkh, [⟨V⟩], true⟩])) := by
        simp only [buildSweep]
        rw [if_neg (not_not_intro hctrl), if_pos (Or.inr hVn)]
        rfl
      simp [buildAndSign, hbuild, isInsufficient, hV]
    · have hVn : ¬ totalOutputValue [⟨AddrFamily.p2wkh, [⟨V⟩], true⟩] <
          sweepDustLimit := by
        rw [htot]
        simp only [sweepDustLimit]
        omega
      have hbuild : ∃ r, buildSweep W script [⟨AddrFamily.p2wkh, [⟨V⟩], true⟩]
          feeRate = .ok r := by
        simp only [buildSweep]
        rw [if_neg (not_not_intro hctrl),
          if_neg (by push_neg; exact ⟨by simp, Nat.le_of_not_lt hVn⟩)]
        exact ⟨_, rfl⟩
      obtain ⟨r, hr⟩ := hbuild
      simp only [buildAndSign, hr]
      rcases hs : signAll signer r.txIns with _ | ws
      · simp [hs, isInsufficient, hV]
      · simp [hs, isInsufficient, hV]
  · intro h600
    have hVn : ¬ totalOutputValue [⟨AddrFamily.p2wkh, [⟨V⟩], true⟩] <
        sweepDustLimit := by
      rw [htot]
      simp only [sweepDustLimit]
      omega
    have hbuild : ∃ r, buildSweep W script [⟨AddrFamily.p2wkh, [⟨V⟩], true⟩]
        feeRate = .ok r := by
      simp only [buildSweep]
      rw [if_neg (not_not_intro hctrl),
        if_neg (by push_neg; exact ⟨by simp, Nat.le_of_not_lt hVn⟩)]
      exact ⟨_, rfl⟩
    obtain ⟨r, hr⟩ := hbuild
    rcases hs : signAll signer r.txIns with _ | ws
    · left
      simp [buildAndSign, hr, hs]
    · right
      exact ⟨r, ws, by simp [buildAndSign, hr, hs]⟩

/-- C2 witness: the amended dust-check characterization applied at the
concrete value 700 with all hypotheses evaluated. -/
theorem c2_insufficient_funds_amended_witness :
    (isInsufficient (buildAndSign weightModelW [0] signerW
        [⟨AddrFamily.p2wkh, [⟨700⟩], true⟩] 10) = true ↔ (700 : Int) < 600) ∧
    ((600 : Int) ≤ 700 →
      buildAndSign weightModelW [0] signerW
          [⟨AddrFamily.p2wkh, [⟨700⟩], true⟩] 10 = .error .signError ∨
        ∃ res ws, buildAndSign weightModelW [0] signerW
            [⟨AddrFamily.p2wkh, [⟨700⟩], true⟩] 10 = .ok (res, ws)) :=
  c2_insufficient_funds_amended weightModelW [0] signerW 10 700 (by norm_num)
    (by norm_num)

/-- C8: when the raw aggregate input value reaches the 600-unit floor, the
build succeeds no matter how large the estimated fee is: the dust check
ignores the fee, and the single output value total minus fee can then be
negative (stated for totals in the int64 range, where the int64 conversion
of the total is the identity). -/
theorem c8_dust_check_ignores_fee (W : WeightModel) (script : List Nat)
    (targets : List SweepTarget) (feeRate : Nat) (hne : targets ≠ [])
    (hctrl : ctrlBlocksOk targets = true)
    (hdust : sweepDustLimit ≤ totalOutputValue targets)
    (hrange : totalOutputValue targets < 9223372036854775808) :
    ∃ r, buildSweep W script targets feeRate = .ok r ∧
      r.txOuts = [⟨(totalOutputValue targets : Int) -
        (sweepTotalFee W targets feeRate : Int), script⟩] ∧
      ((totalOutputValue targets : Int) <
          (sweepTotalFee W targets feeRate : Int) →
        ∀ o ∈ r.txOuts, o.value < 0) := by
  refine ⟨⟨collectTxIns targets,
    [⟨i64 (totalOutputValue targets) -
      (sweepTotalFee W targets feeRate : Int), script⟩],
    sweepTotalFee W targets feeRate⟩, ?_, ?_, ?_⟩
  · simp only [buildSweep]
    rw [if_neg (not_not_intro hctrl), if_neg (by
      push_neg
      exact ⟨fun hl => hne (List.length_eq_zero.mp hl), hdust⟩)]
  · simp only [SweepTxOut.mk.injEq, List.cons.injEq, and_true]
    rw [i64_of_lt _ hrange]
  · intro hlt o ho
    simp only [List.mem_singleton] at ho
    subst ho
    rw [i64_of_lt _ hrange]
    simpa using hlt

/-- C8 witness: a 600-unit input with an oversized weight base, so the fee
exceeds the total and the single output value is negative. -/
theorem c8_dust_check_ignores_fee_witness :
    ∃ r, buildSweep weightModelW8 [0] [sweepTargetW] 10 = .ok r ∧
      r.txOuts = [⟨(totalOutputValue [sweepTargetW] : Int) -
        (sweepTotalFee weightModelW8 [sweepTargetW] 10 : Int), [0]⟩] ∧
      ((totalOutputValue [sweepTargetW] : Int) <
          (sweepTotalFee weightModelW8 [sweepTargetW] 10 : Int) →
        ∀ o ∈ r.txOuts, o.value < 0) :=
  c8_dust_check_ignores_fee weightModelW8 [0] [sweepTargetW] 10 (by decide)
    (by decide) (by decide) (by decide)

/-- C9: in every assembled sweep transaction, witness-script-hash (anchor)
and taproot inputs carry sequence number 1 (the one-block CSV to-remote
delay) and plain witness-key-hash inputs keep the maximum sequence
number. -/
theorem c9_sequence_numbers (W : WeightModel) (script : List Nat)
    (targets : List SweepTarget) (feeRate : Nat) (r : SweepResult)
    (h : buildSweep W script targets feeRate = .ok r) :
    ∀ txIn ∈ r.txIns,
      ((txIn.family = AddrFamily.p2wsh ∨ txIn.family = AddrFamily.p2tr) →
        txIn.sequence = 1) ∧
      (txIn.family = AddrFamily.p2wkh →
        txIn.sequence = maxTxInSequenceNum) := by
  rw [buildSweep_ok_elim W script targets feeRate r h]
  intro txIn htxIn
  simp only [collectTxIns, List.mem_flatten, List.mem_map] at htxIn
  obtain ⟨L, ⟨t, ht, hLt⟩, hxL⟩ := htxIn
  subst hLt
  obtain ⟨u, hu, hxu⟩ := List.mem_map.mp hxL
  rw [← hxu]
  rcases hF : t.family <;> simp [seqForFamily, hF]

/-- C9 witness: the sequence-number invariant applied to a concrete build
containing one input of each script family, evaluated at its anchor
input. -/
theorem c9_sequence_numbers_witness :
    (((⟨AddrFamily.p2wsh, 1⟩ : SweepTxIn).family = AddrFamily.p2wsh ∨
      (⟨AddrFamily.p2wsh, 1⟩ : SweepTxIn).family = AddrFamily.p2tr) →
      (⟨AddrFamily.p2wsh, 1⟩ : SweepTxIn).sequence = 1) ∧
    ((⟨AddrFamily.p2wsh, 1⟩ : SweepTxIn).family = AddrFamily.p2wkh →
      (⟨AddrFamily.p2wsh, 1⟩ : SweepTxIn).sequence = maxTxInSequenceNum) :=
  c9_sequence_numbers weightModelW [0] sweepTargetsW9 10
    ⟨[⟨AddrFamily.p2wkh, 4294967295⟩, ⟨AddrFamily.p2wsh, 1⟩,
      ⟨AddrFamily.p2tr, 1⟩], [⟨-890, [0]⟩], 2990⟩ (by decide)
    ⟨AddrFamily.p2wsh, 1⟩ (by decide)

/-- C5: addrNotFound is the only locally absorbed error kind.  A record
whose lookup yields addrNotFound is skipped and processing continues with
the remaining records; a lookup error of any other kind, or a commit-point
or address parse error, aborts the whole run with that error; at the top
level an addrNotFound outcome keeps the scanner results while any other
error aborts; and a signing failure aborts the sweep with signError. -/
theorem c5_error_propagation {τ : Type} (env : AncientEnv) (numKeys : Nat)
    (ch : AncientChannel) (rest : List AncientChannel) (cp : List Nat)
    (addr : String) (e : AErr) (scanTargets : List τ)
    (signer : SweepTxIn → Option (List Nat)) (W : WeightModel)
    (script : List Nat) (targets : List SweepTarget) (feeRate : Nat)
    (r : SweepResult) :
    (env.decodeCommitPoint ch.cp = .ok cp → env.parseAddr ch.addr = .ok addr →
      env.keyInCache numKeys addr cp = .error AErr.addrNotFound →
      processAncient env numKeys (ch :: rest) =
        processAncient env numKeys rest) ∧
    (env.decodeCommitPoint ch.cp = .ok cp → env.parseAddr ch.addr = .ok addr →
      env.keyInCache numKeys addr cp = .error e → e ≠ AErr.addrNotFound →
      processAncient env numKeys (ch :: rest) = .error e) ∧
    (env.decodeCommitPoint ch.cp = .error e →
      processAncient env numKeys (ch :: rest) = .error e) ∧
    (env.decodeCommitPoint ch.cp = .ok cp →
      env.parseAddr ch.addr = .error e →
      processAncient env numKeys (ch :: rest) = .error e) ∧
    (combineTargets scanTargets
      (Except.error AErr.addrNotFound : Except AErr (List τ)) =
        .ok scanTargets) ∧
    (e ≠ AErr.addrNotFound →
      combineTargets scanTargets (Except.error e : Except AErr (List τ)) =
        .error e) ∧
    (buildSweep W script targets feeRate = .ok r →
      signAll signer r.txIns = none →
      buildAndSign W script signer targets feeRate = .error .signError) := by
  refine ⟨?_, ?_, ?_, ?_, rfl, ?_, ?_⟩
  · intro h1 h2 h3
    simp [processAncient, h1, h2, h3]
  · intro h1 h2 h3 hne
    simp [processAncient, h1, h2, h3, hne]
  · intro h1
    simp [processAncient, h1]
  · intro h1 h2
    simp [processAncient, h1, h2]
  · intro hne
    simp [combineTargets, hne]
  · intro hb hs
    simp [buildAndSign, hb, hs]

/-- C5 witness: the skip clause applied to a concrete record whose lookup
reports addrNotFound, with every hypothesis evaluated. -/
theorem c5_error_propagation_witness :
    processAncient ancientEnvW 5 [⟨"op", "miss", "cp"⟩] =
      processAncient ancientEnvW 5 [] :=
  (c5_error_propagation (τ := Nat) ancientEnvW 5 ⟨"op", "miss", "cp"⟩ []
    [2] "miss" (AErr.otherErr 7) [] signerW weightModelW [0] [sweepTargetW]
    10 ⟨[], [], 0⟩).1 (by decide) (by decide) (by decide)

theorem queryAddressBalances_ok (env : ScanEnv) (i : Nat)
    (hl : ∀ fam, ∃ us, env.unspent i fam = .ok us) :
    queryAddressBalances env i = .ok (List.filterMap (scanCollect env)
      [(i, AddrFamily.p2wkh), (i, AddrFamily.p2wsh), (i, AddrFamily.p2tr)]) := by
  obtain ⟨us1, h1⟩ := hl AddrFamily.p2wkh
  obtain ⟨us2, h2⟩ := hl AddrFamily.p2wsh
  obtain ⟨us3, h3⟩ := hl AddrFamily.p2tr
  simp only [queryAddressBalances, queryOneAddress, scanCollect,
    List.filterMap_cons, h1, h2, h3]
  split_ifs <;> simp

theorem sweepScanGo_spec (env : ScanEnv) (l : List Nat)
    (hd : ∀ i ∈ l, env.deriveOk i = true)
    (hl : ∀ i ∈ l, ∀ fam, ∃ us, env.unspent i fam = .ok us) :
    sweepScanGo env l = .ok ((l.flatMap (fun i =>
      [(i, AddrFamily.p2wkh), (i, AddrFamily.p2wsh),
        (i, AddrFamily.p2tr)])).filterMap (scanCollect env)) := by
  induction l with
  | nil => rfl
  | cons i rest ih =>
    simp only [sweepScanGo, if_pos (hd i (List.mem_cons_self ..))]
    rw [queryAddressBalances_ok env i (hl i (List.mem_cons_self ..))]
    rw [ih (fun j hj => hd j (List.mem_cons_of_mem _ hj))
      (fun j hj => hl j (List.mem_cons_of_mem _ hj))]
    exact congrArg Except.ok (List.filterMap_append ..).symm

/-- C6: when derivation succeeds at every index of the window and every
chain lookup answers, the scan returns exactly the collected lookups over
all candidate addresses of every index below the window, in ascending
index order with the three script families queried per index: the sweep is
flat and never stops early, an address with unspent outputs contributes
exactly one populated target, and an address without contributes
nothing. -/
theorem c6_scan_full_window (env : ScanEnv) (w : Nat)
    (hd : ∀ i < w, env.deriveOk i = true)
    (hl : ∀ i < w, ∀ fam, ∃ us, env.unspent i fam = .ok us) :
    sweepScan env w = .ok (scanSpecTargets env w) :=
  sweepScanGo_spec env (List.range w)
    (fun i hi => hd i (List.mem_range.mp hi))
    (fun i hi => hl i (List.mem_range.mp hi))

/-- C6 witness: the full-window scan equation applied to a window of 3
indices over the concrete environment. -/
theorem c6_scan_full_window_witness :
    sweepScan scanEnvW 3 = .ok (scanSpecTargets scanEnvW 3) :=
  c6_scan_full_window scanEnvW 3 (fun _ _ => rfl) (fun _ _ _ => ⟨_, rfl⟩)

/-- C10: the target generators are pure functions of the public key with
no hidden randomness: two invocations on keys with the same compressed
serialization (in particular, repeated invocations on the same key) return
byte-identical addresses and scripts for all three script families. -/
theorem c10_target_generator_deterministic (C : AddrCrypto)
    (pk1 pk2 : PubKey)
    (h : serializeCompressed pk1 = serializeCompressed pk2) :
    P2WKHAddr C pk1 = P2WKHAddr C pk2 ∧
    P2AnchorStaticRemote C pk1 = P2AnchorStaticRemote C pk2 ∧
    P2TaprootStaticRemote C pk1 = P2TaprootStaticRemote C pk2 := by
  have hx : serializeSchnorr pk1 = serializeSchnorr pk2 := by
    have h2 := congrArg List.tail h
    simpa [serializeCompressed, serializeSchnorr] using h2
  refine ⟨?_, ?_, ?_⟩
  · simp [P2WKHAddr, h]
  · simp [P2AnchorStaticRemote, commitScriptToRemoteConfirmed, h]
  · simp [P2TaprootStaticRemote, taprootRemoteScript, hx]

/-- C10 witness: determinism applied to two invocations on the same
concrete key. -/
theorem c10_target_generator_deterministic_witness :
    P2WKHAddr addrCryptoW pubKeyW = P2WKHAddr addrCryptoW pubKeyW ∧
    P2AnchorStaticRemote addrCryptoW pubKeyW =
      P2AnchorStaticRemote addrCryptoW pubKeyW ∧
    P2TaprootStaticRemote addrCryptoW pubKeyW =
      P2TaprootStaticRemote addrCryptoW pubKeyW :=
  c10_target_generator_deterministic addrCryptoW pubKeyW pubKeyW rfl

end Chansummary
